import Mathlib

/-!
Verification of the two data-preprocessing pipelines of this repository
(src/preprocessing.py, Pipeline A on the employee table, and
src/preprocessing2.py, Pipeline B on the listings table) against their
specification.  The pandas operations are shallowly embedded: a dataframe
cell is a string, a rational number, or a missing value (NaN); a table is a
list of rows.  Floating point arithmetic is idealized as rational
arithmetic.
-/

namespace DataPrep

/- The rational operations of Batteries are irreducible by default, which
blocks evaluation of concrete tables by decide; restore the default
reducibility inside this development. -/
attribute [local semireducible] Rat.add Rat.mul Rat.sub Rat.inv

/-- A dataframe cell: a string, a number (pandas int or float, idealized as a
rational), or a missing value (NaN). -/
inductive Cell where
  | cstr (s : String)
  | cnum (q : ℚ)
  | cna
deriving DecidableEq

/-- The pandas dtype of a column: object (text) or numeric (int or float). -/
inductive DType where
  | dobj
  | dnum
deriving DecidableEq

/-! ## Python string helpers used by step 4 of preprocessing.py -/

/-- Python str.strip(): remove leading and trailing whitespace. -/
def pyStrip (s : String) : String :=
  String.mk (((s.toList.dropWhile Char.isWhitespace).reverse.dropWhile
    Char.isWhitespace).reverse)

/-- Helper for pyTitle: walk the characters, uppercasing a letter that does
not follow a letter and lowercasing a letter that does. -/
def titleChars : Bool → List Char → List Char
  | _, [] => []
  | prevAlpha, c :: cs =>
    if c.isAlpha then
      (if prevAlpha then c.toLower else c.toUpper) :: titleChars true cs
    else
      c :: titleChars false cs

/-- Python str.title(): first letter of each word uppercased, the rest
lowercased. -/
def pyTitle (s : String) : String :=
  String.mk (titleChars false s.toList)

/-- The string representation a cell gets under astype(str): a NaN renders as
the string nan, a number renders with a trailing .0 when integral (pandas
stores the column as float). -/
def cellToStr : Cell → String
  | Cell.cstr s => s
  | Cell.cnum q => if q.den = 1 then toString q.num ++ ".0" else toString q
  | Cell.cna => "nan"

/-- One cell of the step 4 text normalization:
astype(str).str.strip().str.title(). -/
def normCell (c : Cell) : Cell :=
  Cell.cstr (pyTitle (pyStrip (cellToStr c)))

/-! ## drop_duplicates: keep the first occurrence of each duplicated row -/

/-- Fuel-driven helper for dedupFirst; the fuel is an upper bound on the
list length, so the recursion is structural and computes by reduction. -/
def dedupFirstAux {α : Type} [DecidableEq α] : ℕ → List α → List α
  | 0, _ => []
  | _ + 1, [] => []
  | n + 1, a :: l => a :: dedupFirstAux n (l.filter (fun b => decide (b ≠ a)))

/-- pandas drop_duplicates with the default keep equal to first: keep the
first occurrence of every row value. -/
def dedupFirst {α : Type} [DecidableEq α] (l : List α) : List α :=
  dedupFirstAux l.length l

theorem dedupFirstAux_fuel {α : Type} [DecidableEq α] :
    ∀ (n m : ℕ) (l : List α), l.length ≤ n → l.length ≤ m →
      dedupFirstAux n l = dedupFirstAux m l
  | 0, m, l, hn, _ => by
    have : l = [] := List.eq_nil_of_length_eq_zero (Nat.le_zero.mp hn)
    subst this
    cases m <;> rfl
  | n + 1, m, [], _, _ => by cases m <;> rfl
  | n + 1, 0, a :: l, _, hm => by simp at hm
  | n + 1, m + 1, a :: l, hn, hm => by
    simp only [List.length_cons, Nat.add_le_add_iff_right] at hn hm
    have hf : (l.filter (fun b => decide (b ≠ a))).length ≤ l.length :=
      List.length_filter_le _ _
    simp only [dedupFirstAux]
    rw [dedupFirstAux_fuel n m _ (le_trans hf hn) (le_trans hf hm)]

theorem dedupFirst_nil {α : Type} [DecidableEq α] :
    dedupFirst ([] : List α) = [] := rfl

theorem dedupFirst_cons {α : Type} [DecidableEq α] (a : α) (l : List α) :
    dedupFirst (a :: l) = a :: dedupFirst (l.filter (fun b => decide (b ≠ a))) := by
  have hf : (l.filter (fun b => decide (b ≠ a))).length ≤ l.length :=
    List.length_filter_le _ _
  simp only [dedupFirst, List.length_cons, dedupFirstAux]
  rw [dedupFirstAux_fuel l.length _ _ hf le_rfl]

theorem filter_idem {α : Type} (p : α → Bool) (l : List α) :
    (l.filter p).filter p = l.filter p :=
  List.filter_eq_self.mpr (fun _ ha => (List.mem_filter.mp ha).2)

theorem filter_of_not_mem {α : Type} [DecidableEq α] (a : α) (l : List α)
    (h : a ∉ l) : l.filter (fun b => decide (b ≠ a)) = l := by
  refine List.filter_eq_self.mpr (fun b hb => ?_)
  simp only [decide_eq_true_eq]
  intro hba
  exact h (hba ▸ hb)

theorem filter_dedupFirst {α : Type} [DecidableEq α] (p : α → Bool) :
    ∀ (n : ℕ) (l : List α), l.length ≤ n →
      (dedupFirst l).filter p = dedupFirst (l.filter p)
  | 0, l, h => by
    have : l = [] := List.eq_nil_of_length_eq_zero (Nat.le_zero.mp h)
    subst this; simp [dedupFirst_nil]
  | n + 1, [], _ => by simp [dedupFirst_nil]
  | n + 1, a :: l, h => by
    have hlen : (l.filter (fun b => decide (b ≠ a))).length ≤ n :=
      le_trans (List.length_filter_le _ _) (Nat.lt_succ_iff.mp (lt_of_lt_of_le (Nat.lt_succ_self _) h))
    rw [dedupFirst_cons]
    by_cases hpa : p a = true
    · rw [List.filter_cons_of_pos hpa, List.filter_cons_of_pos hpa,
        dedupFirst_cons, filter_dedupFirst p n _ hlen, List.filter_comm]
    · have hpa' : p a = false := Bool.eq_false_iff.mpr hpa
      rw [List.filter_cons_of_neg (by simp [hpa']), List.filter_cons_of_neg (by simp [hpa']),
        filter_dedupFirst p n _ hlen, List.filter_comm]
      have hnm : a ∉ l.filter p := by
        intro hmem
        exact hpa ((List.mem_filter.mp hmem).2)
      rw [filter_of_not_mem a _ hnm]

theorem dedupFirst_idem {α : Type} [DecidableEq α] :
    ∀ (n : ℕ) (l : List α), l.length ≤ n →
      dedupFirst (dedupFirst l) = dedupFirst l
  | 0, l, h => by
    have : l = [] := List.eq_nil_of_length_eq_zero (Nat.le_zero.mp h)
    subst this; simp [dedupFirst_nil]
  | n + 1, [], _ => by simp [dedupFirst_nil]
  | n + 1, a :: l, h => by
    have hlen : (l.filter (fun b => decide (b ≠ a))).length ≤ n :=
      le_trans (List.length_filter_le _ _) (Nat.lt_succ_iff.mp (lt_of_lt_of_le (Nat.lt_succ_self _) h))
    rw [dedupFirst_cons, dedupFirst_cons,
      filter_dedupFirst _ n _ hlen, filter_idem, dedupFirst_idem n _ hlen]

/-! ## Pipeline A, steps 7 to 9: row filtering, IQR outlier removal,
seniority bucket (typed view of the employee table at that stage: Company,
Place and Gender hold strings or NaN, Age and Salary hold floats or NaN) -/

/-- A row of the employee table at the validation and filtering stage of
preprocessing.py (after the Gender recode): missing values are none. -/
structure FRow where
  company : Option String
  place : Option String
  age : Option ℚ
  salary : Option ℚ
  gender : Option String
deriving DecidableEq

/-- Row predicate of the filter df[(df[Age] >= 18) & (df[Age] <= 65)]: a
comparison against NaN is false. -/
def agePred (r : FRow) : Bool :=
  match r.age with
  | some a => decide (18 ≤ a) && decide (a ≤ 65)
  | none => false

/-- Row predicate of the filter df[df[Salary] >= 1000]. -/
def salaryPred (r : FRow) : Bool :=
  match r.salary with
  | some s => decide (1000 ≤ s)
  | none => false

/-- Row predicate of dropna(subset=[Company, Place, Gender]). -/
def reqPred (r : FRow) : Bool :=
  decide (r.company ≠ none) && decide (r.place ≠ none) && decide (r.gender ≠ none)

/-- Step 7 of preprocessing.py in source order: drop_duplicates, the Age
range filter, the Salary filter, then dropna on the required columns. -/
def filterStage (t : List FRow) : List FRow :=
  (((dedupFirst t).filter agePred).filter salaryPred).filter reqPred

/-- The four row-level operations of the validation and filtering stage. -/
inductive FOp where
  | fdedup
  | fage
  | fsalary
  | freq
deriving DecidableEq

/-- Interpretation of one filtering operation. -/
def applyOp : FOp → List FRow → List FRow
  | FOp.fdedup, t => dedupFirst t
  | FOp.fage, t => t.filter agePred
  | FOp.fsalary, t => t.filter salaryPred
  | FOp.freq, t => t.filter reqPred

/-- The order in which preprocessing.py applies the four operations. -/
def codeOrder : List FOp := [FOp.fdedup, FOp.fage, FOp.fsalary, FOp.freq]

/-- Run a list of filtering operations left to right. -/
def runOps (ops : List FOp) (t : List FRow) : List FRow :=
  ops.foldl (fun acc op => applyOp op acc) t

theorem applyOp_comm (o₁ o₂ : FOp) (t : List FRow) :
    applyOp o₁ (applyOp o₂ t) = applyOp o₂ (applyOp o₁ t) := by
  have hd : ∀ (p : FRow → Bool) (l : List FRow),
      (dedupFirst l).filter p = dedupFirst (l.filter p) :=
    fun p l => filter_dedupFirst p l.length l le_rfl
  cases o₁ <;> cases o₂ <;> simp only [applyOp, hd] <;>
    first
      | rfl
      | exact List.filter_comm _ _ _

theorem applyOp_idem (o : FOp) (t : List FRow) :
    applyOp o (applyOp o t) = applyOp o t := by
  cases o <;>
    simp [applyOp, filter_idem, dedupFirst_idem t.length t le_rfl]

theorem runOps_perm (l₁ l₂ : List FOp) (h : l₁.Perm l₂) :
    ∀ t, runOps l₁ t = runOps l₂ t := by
  induction h with
  | nil => intro t; rfl
  | cons x _ ih =>
    intro t
    simp only [runOps, List.foldl_cons] at *
    exact ih _
  | swap x y l =>
    intro t
    simp only [runOps, List.foldl_cons]
    rw [applyOp_comm]
  | trans _ _ ih₁ ih₂ =>
    intro t
    rw [ih₁, ih₂]

theorem runOps_codeOrder (t : List FRow) : runOps codeOrder t = filterStage t := rfl

/-- Claim C7: the row filter stage of Pipeline A (duplicate removal, the
inclusive Age and Salary range checks, and dropna on Company, Place and
Gender) is idempotent: applying the whole stage to its own output returns
the output unchanged. -/
theorem c7_filterStage_idempotent (t : List FRow) :
    filterStage (filterStage t) = filterStage t := by
  have hd : ∀ (p : FRow → Bool) (l : List FRow),
      (dedupFirst l).filter p = dedupFirst (l.filter p) :=
    fun p l => filter_dedupFirst p l.length l le_rfl
  have hidem : ∀ l : List FRow, dedupFirst (dedupFirst l) = dedupFirst l :=
    fun l => dedupFirst_idem l.length l le_rfl
  simp only [filterStage, hd, hidem]
  congr 1
  simp only [List.filter_filter]
  congr 1
  funext r
  cases agePred r <;> cases salaryPred r <;> cases reqPred r <;> rfl

/-- Claim C8: the four operations of the row filter stage are
order-independent: running them in any permutation of the source order
produces the same table as the source order, which itself equals the
filter stage of the code. -/
theorem c8_filter_order_independent (l : List FOp) (h : l.Perm codeOrder)
    (t : List FRow) : runOps l t = filterStage t := by
  rw [runOps_perm l codeOrder h t, runOps_codeOrder]

/-- A sample employee row that survives every filter. -/
def sampleRow : FRow :=
  { company := some "Tcs", place := some "Mumbai", age := some 30,
    salary := some 5000, gender := some "Male" }

/-- A sample employee row that the Age range filter rejects. -/
def oldRow : FRow :=
  { company := some "Tcs", place := some "Mumbai", age := some 70,
    salary := some 31000, gender := some "Male" }

/-- Witness for claim C8: running the four filter operations in reverse
order on a concrete two-row table gives the same result as the code order. -/
theorem c8_witness :
    runOps [FOp.freq, FOp.fsalary, FOp.fage, FOp.fdedup] [sampleRow, oldRow] =
      filterStage [sampleRow, oldRow] :=
  c8_filter_order_independent _ (by decide) _

/-! ## Quantiles with linear interpolation (pandas Series.quantile) and the
IQR outlier removal of step 8 -/

/-- pandas Series.quantile with the default linear interpolation: sort the
values, take position q * (n - 1), and interpolate linearly between the two
neighbouring order statistics.  An empty series gives NaN, modelled as
none. -/
def quantileLin (l : List ℚ) (q : ℚ) : Option ℚ :=
  if l = [] then none
  else
    let s := List.insertionSort (fun a b => a ≤ b) l
    let m : ℕ := l.length - 1
    let pos : ℚ := q * (m : ℚ)
    let i : ℕ := (⌊pos⌋).toNat
    some (s.getD i 0 + (pos - (i : ℚ)) * (s.getD (i + 1) (s.getD i 0) - s.getD i 0))

theorem quantileLin_eq_none_iff (l : List ℚ) (q : ℚ) :
    quantileLin l q = none ↔ l = [] := by
  unfold quantileLin
  split <;> simp_all

/-- remove_outliers_iqr of preprocessing.py on a column of the employee
table (the column is read through a getter): Q1 and Q3 by linear
interpolation, IQR = Q3 - Q1, and keep the rows whose value lies between
Q1 - 1.5 IQR and Q3 + 1.5 IQR inclusive; a NaN never satisfies the
comparison, and when the column has no values at all the quantiles are NaN
and no row survives. -/
def removeOutliersIQR (t : List FRow) (get : FRow → Option ℚ) : List FRow :=
  match quantileLin (t.filterMap get) (1/4), quantileLin (t.filterMap get) (3/4) with
  | some q1, some q3 =>
    t.filter (fun r =>
      match get r with
      | some v =>
        decide (q1 - 3/2 * (q3 - q1) ≤ v) && decide (v ≤ q3 + 3/2 * (q3 - q1))
      | none => false)
  | _, _ => []

/-- Step 8 of preprocessing.py: remove outliers on Age, then on Salary. -/
def outlierStage (t : List FRow) : List FRow :=
  removeOutliersIQR (removeOutliersIQR t (fun r => r.age)) (fun r => r.salary)

theorem mem_removeOutliersIQR (u : List FRow) (get : FRow → Option ℚ) (r : FRow) :
    r ∈ removeOutliersIQR u get ↔
      r ∈ u ∧ ∃ v q1 q3, get r = some v ∧
        quantileLin (u.filterMap get) (1/4) = some q1 ∧
        quantileLin (u.filterMap get) (3/4) = some q3 ∧
        q1 - 3/2 * (q3 - q1) ≤ v ∧ v ≤ q3 + 3/2 * (q3 - q1) := by
  by_cases hv : u.filterMap get = []
  · have h1 : quantileLin (u.filterMap get) (1/4) = none :=
      (quantileLin_eq_none_iff _ _).mpr hv
    have h3 : quantileLin (u.filterMap get) (3/4) = none :=
      (quantileLin_eq_none_iff _ _).mpr hv
    simp [removeOutliersIQR, h1, h3]
  · have hv1 : quantileLin (u.filterMap get) (1/4) ≠ none :=
      fun h => hv ((quantileLin_eq_none_iff _ _).mp h)
    have hv3 : quantileLin (u.filterMap get) (3/4) ≠ none :=
      fun h => hv ((quantileLin_eq_none_iff _ _).mp h)
    obtain ⟨q1, h1⟩ := Option.ne_none_iff_exists'.mp hv1
    obtain ⟨q3, h3⟩ := Option.ne_none_iff_exists'.mp hv3
    simp only [removeOutliersIQR, h1, h3, List.mem_filter]
    constructor
    · rintro ⟨hr, hp⟩
      refine ⟨hr, ?_⟩
      rcases hg : get r with _ | v
      · rw [hg] at hp; simp at hp
      · rw [hg] at hp
        simp only [Bool.and_eq_true, decide_eq_true_eq] at hp
        exact ⟨v, q1, q3, rfl, rfl, rfl, hp.1, hp.2⟩
    · rintro ⟨hr, v, q1x, q3x, hg, hq1, hq3, hl, hu⟩
      refine ⟨hr, ?_⟩
      obtain rfl : q1 = q1x := Option.some.inj hq1
      obtain rfl : q3 = q3x := Option.some.inj hq3
      rw [hg]
      simp only [Bool.and_eq_true, decide_eq_true_eq]
      exact ⟨hl, hu⟩

/-- Claim C3: Pipeline A removes outliers by the IQR rule with quartiles
from linear interpolation; the filter retains exactly the rows whose value
lies in the closed interval from Q1 - 1.5 IQR to Q3 + 1.5 IQR; it runs on
Age first and then on Salary over the rows surviving the Age filter, and
every retained row lies within the bounds computed from the table as it
stood immediately before the filter of that column. -/
theorem c3_outlier_iqr (t : List FRow) :
    outlierStage t =
      removeOutliersIQR (removeOutliersIQR t (fun r => r.age)) (fun r => r.salary)
    ∧ (∀ (u : List FRow) (get : FRow → Option ℚ) (r : FRow),
        r ∈ removeOutliersIQR u get ↔
          r ∈ u ∧ ∃ v q1 q3, get r = some v ∧
            quantileLin (u.filterMap get) (1/4) = some q1 ∧
            quantileLin (u.filterMap get) (3/4) = some q3 ∧
            q1 - 3/2 * (q3 - q1) ≤ v ∧ v ≤ q3 + 3/2 * (q3 - q1))
    ∧ (∀ r ∈ outlierStage t,
        (∃ v q1 q3, r.salary = some v ∧
          quantileLin ((removeOutliersIQR t (fun x => x.age)).filterMap
            (fun x => x.salary)) (1/4) = some q1 ∧
          quantileLin ((removeOutliersIQR t (fun x => x.age)).filterMap
            (fun x => x.salary)) (3/4) = some q3 ∧
          q1 - 3/2 * (q3 - q1) ≤ v ∧ v ≤ q3 + 3/2 * (q3 - q1)) ∧
        (∃ v q1 q3, r.age = some v ∧
          quantileLin (t.filterMap (fun x => x.age)) (1/4) = some q1 ∧
          quantileLin (t.filterMap (fun x => x.age)) (3/4) = some q3 ∧
          q1 - 3/2 * (q3 - q1) ≤ v ∧ v ≤ q3 + 3/2 * (q3 - q1))) := by
  refine ⟨rfl, mem_removeOutliersIQR, ?_⟩
  intro r hr
  have hs := (mem_removeOutliersIQR _ _ _).mp hr
  have ha := (mem_removeOutliersIQR _ _ _).mp hs.1
  exact ⟨hs.2, ha.2⟩

/-! ## Step 9: the Seniority bucket (pd.cut with bins 17, 25, 35, 50, 65) -/

/-- pd.cut with bins [17, 25, 35, 50, 65] and labels Junior, Mid, Senior,
Executive: each bin is half-open, left edge excluded and right edge
included; a value outside every bin becomes missing. -/
def seniorityOf (a : ℚ) : Option String :=
  if 17 < a ∧ a ≤ 25 then some "Junior"
  else if 25 < a ∧ a ≤ 35 then some "Mid"
  else if 35 < a ∧ a ≤ 50 then some "Senior"
  else if 50 < a ∧ a ≤ 65 then some "Executive"
  else none

/-- pd.cut applied to one Age cell: a NaN age stays missing. -/
def seniorityCell : Option ℚ → Option String
  | some a => seniorityOf a
  | none => none

/-- Step 9 of preprocessing.py: append the derived Seniority column. -/
def seniorityStage (t : List FRow) : List (FRow × Option String) :=
  t.map (fun r => (r, seniorityCell r.age))

/-- Steps 7 to 9 of preprocessing.py: row filtering, outlier removal, then
the Seniority bucket.  The final exported rows are exactly these. -/
def pipelineTail (t : List FRow) : List (FRow × Option String) :=
  seniorityStage (outlierStage (filterStage t))

/-- Claim C10: every row of the final output of Pipeline A carries a
non-missing Seniority label, because the surviving ages lie in the closed
interval from 18 to 65 and the four half-open bins of pd.cut cover it. -/
theorem c10_seniority_total (t : List FRow) (r : FRow) (s : Option String)
    (h : (r, s) ∈ pipelineTail t) : ∃ lbl, s = some lbl := by
  unfold pipelineTail seniorityStage at h
  obtain ⟨r0, hr0, heq⟩ := List.mem_map.mp h
  simp only [Prod.mk.injEq] at heq
  obtain ⟨hre, hse⟩ := heq
  subst hre
  subst hse
  have h1 : r0 ∈ filterStage t := by
    have h2 := (mem_removeOutliersIQR _ _ _).mp hr0
    exact ((mem_removeOutliersIQR _ _ _).mp h2.1).1
  have hage : agePred r0 = true := by
    unfold filterStage at h1
    exact (List.mem_filter.mp (List.mem_filter.mp (List.mem_filter.mp h1).1).1).2
  rcases hra : r0.age with _ | a
  · rw [agePred, hra] at hage
    simp at hage
  · rw [agePred, hra] at hage
    simp only [Bool.and_eq_true, decide_eq_true_eq] at hage
    obtain ⟨h18, h65⟩ := hage
    simp only [seniorityCell, hra]
    unfold seniorityOf
    split_ifs with hJ hM hS hE
    · exact ⟨"Junior", rfl⟩
    · exact ⟨"Mid", rfl⟩
    · exact ⟨"Senior", rfl⟩
    · exact ⟨"Executive", rfl⟩
    · exfalso
      push_neg at hJ hM hS hE
      have c17 : (17 : ℚ) < a := by linarith
      have c25 := hJ c17
      have c35 := hM c25
      have c50 := hS c35
      have c65 := hE c50
      linarith

set_option maxRecDepth 4000 in
/-- Witness for claim C10: the sample row survives the whole tail of the
pipeline and its Seniority label exists. -/
theorem c10_witness : ∃ lbl, seniorityCell sampleRow.age = some lbl :=
  c10_seniority_total [sampleRow] sampleRow (seniorityCell sampleRow.age)
    (by decide)

/-! ## Step 5 of preprocessing.py: group-wise imputation of Place, Age and
Salary, grouped by Company -/

/-- pandas Series.mode()[0] on a list of strings: the most frequent value,
and among ties the lexicographically smallest (mode returns the modes in
sorted order); none when the list is empty. -/
def modeStr (l : List String) : Option String :=
  match l.dedup with
  | [] => none
  | c :: cs =>
    some (cs.foldl
      (fun b a => if l.count b < l.count a ∨ (l.count a = l.count b ∧ a < b) then a else b) c)

/-- pandas Series.median(): middle order statistic, or the average of the
two middle ones for an even count; NaN (none) on an empty series. -/
def medianQ (l : List ℚ) : Option ℚ :=
  if l = [] then none
  else
    let s := List.insertionSort (fun a b => a ≤ b) l
    if l.length % 2 = 1 then some (s.getD (l.length / 2) 0)
    else some ((s.getD (l.length / 2 - 1) 0 + s.getD (l.length / 2) 0) / 2)

/-- pandas Series.mean(): sum over count; NaN (none) on an empty series. -/
def meanQ (l : List ℚ) : Option ℚ :=
  if l = [] then none else some (l.sum / (l.length : ℚ))

theorem medianQ_ne_none (l : List ℚ) (h : l ≠ []) : medianQ l ≠ none := by
  unfold medianQ
  rw [if_neg h]
  split <;> simp

theorem meanQ_ne_none (l : List ℚ) (h : l ≠ []) : meanQ l ≠ none := by
  unfold meanQ
  rw [if_neg h]
  simp

/-- A row of the employee table at the imputation stage of preprocessing.py:
the Company and Place columns hold strings or NaN, Age and Salary hold
floats or NaN. -/
structure ImpRow where
  company : Option String
  place : Option String
  age : Option ℚ
  salary : Option ℚ
deriving DecidableEq

/-- The non-missing Place values of the group of rows whose Company is c. -/
def groupPlaces (t : List ImpRow) (c : String) : List String :=
  t.filterMap (fun r => if r.company = some c then r.place else none)

/-- The non-missing Age values of the group of rows whose Company is c. -/
def groupAges (t : List ImpRow) (c : String) : List ℚ :=
  t.filterMap (fun r => if r.company = some c then r.age else none)

/-- The non-missing Salary values of the group of rows whose Company is c. -/
def groupSalaries (t : List ImpRow) (c : String) : List ℚ :=
  t.filterMap (fun r => if r.company = some c then r.salary else none)

/-- fill_place of preprocessing.py applied through
groupby(Company).transform to one row: a missing Place is replaced by the
mode of the Place values of the company of the row, or by the literal
Unknown when the group has no mode; a row whose Company is missing belongs
to no group, and groupby.transform leaves NaN there. -/
def fillPlaceRow (t : List ImpRow) (r : ImpRow) : ImpRow :=
  match r.company with
  | none => { r with place := none }
  | some c =>
    match r.place with
    | some _ => r
    | none => { r with place := some ((modeStr (groupPlaces t c)).getD "Unknown") }

/-- The Place transform of step 5. -/
def stagePlace (t : List ImpRow) : List ImpRow := t.map (fillPlaceRow t)

/-- The Age fill of step 5 on one row: a missing Age becomes the median of
the Age values of the company of the row (fillna(NaN) when the group is
all-missing); a missing Company leaves NaN. -/
def fillAgeRow (t : List ImpRow) (r : ImpRow) : ImpRow :=
  match r.company with
  | none => { r with age := none }
  | some c =>
    match r.age with
    | some _ => r
    | none => { r with age := medianQ (groupAges t c) }

/-- The Age transform of step 5. -/
def stageAge (t : List ImpRow) : List ImpRow := t.map (fillAgeRow t)

/-- The Salary fill of step 5 on one row: a missing Salary becomes the mean
of the Salary values of the company of the row. -/
def fillSalaryRow (t : List ImpRow) (r : ImpRow) : ImpRow :=
  match r.company with
  | none => { r with salary := none }
  | some c =>
    match r.salary with
    | some _ => r
    | none => { r with salary := meanQ (groupSalaries t c) }

/-- The Salary transform of step 5. -/
def stageSalary (t : List ImpRow) : List ImpRow := t.map (fillSalaryRow t)

/-- Step 5 of preprocessing.py after the Company fill: the Place, Age and
Salary group-wise transforms, in source order. -/
def imputeStage (t : List ImpRow) : List ImpRow :=
  stageSalary (stageAge (stagePlace t))

theorem fillPlaceRow_company (t : List ImpRow) (r : ImpRow) :
    (fillPlaceRow t r).company = r.company := by
  obtain ⟨rc, rp, ra, rs⟩ := r
  unfold fillPlaceRow
  rcases rc with _ | c
  · rfl
  · rcases rp with _ | x <;> rfl

theorem fillPlaceRow_age (t : List ImpRow) (r : ImpRow) :
    (fillPlaceRow t r).age = r.age := by
  obtain ⟨rc, rp, ra, rs⟩ := r
  unfold fillPlaceRow
  rcases rc with _ | c
  · rfl
  · rcases rp with _ | x <;> rfl

theorem fillPlaceRow_salary (t : List ImpRow) (r : ImpRow) :
    (fillPlaceRow t r).salary = r.salary := by
  obtain ⟨rc, rp, ra, rs⟩ := r
  unfold fillPlaceRow
  rcases rc with _ | c
  · rfl
  · rcases rp with _ | x <;> rfl

theorem fillAgeRow_company (t : List ImpRow) (r : ImpRow) :
    (fillAgeRow t r).company = r.company := by
  obtain ⟨rc, rp, ra, rs⟩ := r
  unfold fillAgeRow
  rcases rc with _ | c
  · rfl
  · rcases ra with _ | x <;> rfl

theorem fillAgeRow_place (t : List ImpRow) (r : ImpRow) :
    (fillAgeRow t r).place = r.place := by
  obtain ⟨rc, rp, ra, rs⟩ := r
  unfold fillAgeRow
  rcases rc with _ | c
  · rfl
  · rcases ra with _ | x <;> rfl

theorem fillAgeRow_salary (t : List ImpRow) (r : ImpRow) :
    (fillAgeRow t r).salary = r.salary := by
  obtain ⟨rc, rp, ra, rs⟩ := r
  unfold fillAgeRow
  rcases rc with _ | c
  · rfl
  · rcases ra with _ | x <;> rfl

theorem fillSalaryRow_company (t : List ImpRow) (r : ImpRow) :
    (fillSalaryRow t r).company = r.company := by
  obtain ⟨rc, rp, ra, rs⟩ := r
  unfold fillSalaryRow
  rcases rc with _ | c
  · rfl
  · rcases rs with _ | x <;> rfl

theorem fillSalaryRow_place (t : List ImpRow) (r : ImpRow) :
    (fillSalaryRow t r).place = r.place := by
  obtain ⟨rc, rp, ra, rs⟩ := r
  unfold fillSalaryRow
  rcases rc with _ | c
  · rfl
  · rcases rs with _ | x <;> rfl

theorem fillSalaryRow_age (t : List ImpRow) (r : ImpRow) :
    (fillSalaryRow t r).age = r.age := by
  obtain ⟨rc, rp, ra, rs⟩ := r
  unfold fillSalaryRow
  rcases rc with _ | c
  · rfl
  · rcases rs with _ | x <;> rfl

theorem groupAges_stagePlace (t : List ImpRow) (c : String) :
    groupAges (stagePlace t) c = groupAges t c := by
  unfold groupAges stagePlace
  rw [List.filterMap_map]
  congr 1
  funext r
  simp only [Function.comp_apply, fillPlaceRow_company, fillPlaceRow_age]

theorem groupSalaries_stagePlace (t : List ImpRow) (c : String) :
    groupSalaries (stagePlace t) c = groupSalaries t c := by
  unfold groupSalaries stagePlace
  rw [List.filterMap_map]
  congr 1
  funext r
  simp only [Function.comp_apply, fillPlaceRow_company, fillPlaceRow_salary]

theorem groupSalaries_stageAge (t : List ImpRow) (c : String) :
    groupSalaries (stageAge t) c = groupSalaries t c := by
  unfold groupSalaries stageAge
  rw [List.filterMap_map]
  congr 1
  funext r
  simp only [Function.comp_apply, fillAgeRow_company, fillAgeRow_salary]

theorem stagePlace_filled (t : List ImpRow) (c : String) :
    ∀ r ∈ stagePlace t, r.company = some c → r.place ≠ none := by
  intro rr hrr hc
  obtain ⟨r, _, rfl⟩ := List.mem_map.mp hrr
  rw [fillPlaceRow_company] at hc
  unfold fillPlaceRow
  rw [hc]
  rcases hp : r.place with _ | p
  · simp
  · simp [hp]

theorem stagePlace_unknown (t : List ImpRow) (c : String)
    (hall : ∀ r ∈ t, r.company = some c → r.place = none) :
    ∀ r ∈ stagePlace t, r.company = some c → r.place = some "Unknown" := by
  have hgp : groupPlaces t c = [] := by
    unfold groupPlaces
    rw [List.filterMap_eq_nil_iff]
    intro r hr
    by_cases hrc : r.company = some c
    · rw [if_pos hrc, hall r hr hrc]
    · rw [if_neg hrc]
  intro rr hrr hc
  obtain ⟨r, hrt, rfl⟩ := List.mem_map.mp hrr
  rw [fillPlaceRow_company] at hc
  have hrp : r.place = none := hall r hrt hc
  unfold fillPlaceRow
  rw [hc, hrp]
  simp [hgp, modeStr]

theorem stageAge_filled (t : List ImpRow) (c : String)
    (hne : groupAges t c ≠ []) :
    ∀ r ∈ stageAge t, r.company = some c → r.age ≠ none := by
  intro rr hrr hc
  obtain ⟨r, _, rfl⟩ := List.mem_map.mp hrr
  rw [fillAgeRow_company] at hc
  unfold fillAgeRow
  rw [hc]
  rcases ha : r.age with _ | a
  · simpa using medianQ_ne_none _ hne
  · simp [ha]

theorem stageSalary_filled (t : List ImpRow) (c : String)
    (hne : groupSalaries t c ≠ []) :
    ∀ r ∈ stageSalary t, r.company = some c → r.salary ≠ none := by
  intro rr hrr hc
  obtain ⟨r, _, rfl⟩ := List.mem_map.mp hrr
  rw [fillSalaryRow_company] at hc
  unfold fillSalaryRow
  rw [hc]
  rcases hs : r.salary with _ | s
  · simpa using meanQ_ne_none _ hne
  · simp [hs]

/-- Claim C1: the group-wise imputation of Pipeline A partitions rows by
Company and fills a missing Place with the mode of the group (the literal
Unknown when the group has no non-missing Place), a missing Age with the
median of the group, and a missing Salary with the mean of the group; every
group with at least one non-missing value in the target column has no
missing entry in that column after the fill (for Place this holds even
without the proviso, thanks to the Unknown fallback). -/
theorem c1_groupwise_imputation (t : List ImpRow) (c : String) :
    (∀ r ∈ imputeStage t, r.company = some c → r.place ≠ none)
    ∧ ((∀ r ∈ t, r.company = some c → r.place = none) →
        ∀ r ∈ imputeStage t, r.company = some c → r.place = some "Unknown")
    ∧ ((∃ r ∈ t, r.company = some c ∧ r.age ≠ none) →
        ∀ r ∈ imputeStage t, r.company = some c → r.age ≠ none)
    ∧ ((∃ r ∈ t, r.company = some c ∧ r.salary ≠ none) →
        ∀ r ∈ imputeStage t, r.company = some c → r.salary ≠ none) := by
  refine ⟨?_, ?_, ?_, ?_⟩
  · -- Place is always filled for rows belonging to a group.
    intro rr hrr hc
    unfold imputeStage at hrr
    obtain ⟨r2, hr2, rfl⟩ := List.mem_map.mp hrr
    obtain ⟨r1, hr1, rfl⟩ := List.mem_map.mp hr2
    rw [fillSalaryRow_company, fillAgeRow_company] at hc
    rw [fillSalaryRow_place, fillAgeRow_place]
    exact stagePlace_filled t c r1 hr1 hc
  · -- A group with no non-missing Place gets the literal Unknown.
    intro hall rr hrr hc
    unfold imputeStage at hrr
    obtain ⟨r2, hr2, rfl⟩ := List.mem_map.mp hrr
    obtain ⟨r1, hr1, rfl⟩ := List.mem_map.mp hr2
    rw [fillSalaryRow_company, fillAgeRow_company] at hc
    rw [fillSalaryRow_place, fillAgeRow_place]
    exact stagePlace_unknown t c hall r1 hr1 hc
  · -- Age: a group with a non-missing Age has no missing Age afterwards.
    rintro ⟨r0, hr0, hr0c, hr0a⟩ rr hrr hc
    unfold imputeStage at hrr
    obtain ⟨r2, hr2, rfl⟩ := List.mem_map.mp hrr
    rw [fillSalaryRow_company] at hc
    rw [fillSalaryRow_age]
    have hne : groupAges (stagePlace t) c ≠ [] := by
      rw [groupAges_stagePlace]
      rcases ha : r0.age with _ | a
      · exact absurd ha hr0a
      · have : a ∈ groupAges t c := by
          unfold groupAges
          exact List.mem_filterMap.mpr ⟨r0, hr0, by rw [if_pos hr0c, ha]⟩
        exact List.ne_nil_of_mem this
    exact stageAge_filled (stagePlace t) c hne r2 hr2 hc
  · -- Salary: a group with a non-missing Salary has no missing Salary
    -- afterwards.
    rintro ⟨r0, hr0, hr0c, hr0s⟩ rr hrr hc
    unfold imputeStage at hrr
    have hne : groupSalaries (stageAge (stagePlace t)) c ≠ [] := by
      rw [groupSalaries_stageAge, groupSalaries_stagePlace]
      rcases hs : r0.salary with _ | s
      · exact absurd hs hr0s
      · have : s ∈ groupSalaries t c := by
          unfold groupSalaries
          exact List.mem_filterMap.mpr ⟨r0, hr0, by rw [if_pos hr0c, hs]⟩
        exact List.ne_nil_of_mem this
    exact stageSalary_filled (stageAge (stagePlace t)) c hne rr hrr hc

/-- A concrete three-row table for exercising the imputation contract. -/
def impTable : List ImpRow :=
  [ { company := some "Tcs", place := some "Mumbai", age := some 24, salary := some 30000 },
    { company := some "Tcs", place := none, age := none, salary := none },
    { company := some "Abc", place := none, age := none, salary := some 5 } ]

/-- Witness for claim C1: on the concrete table, the Tcs group has its Age
and Salary filled, and the Abc group (whose Place values are all missing)
receives the literal Unknown. -/
theorem c1_witness :
    (∀ r ∈ imputeStage impTable, r.company = some "Tcs" → r.age ≠ none)
    ∧ (∀ r ∈ imputeStage impTable, r.company = some "Abc" → r.place = some "Unknown")
    ∧ (∀ r ∈ imputeStage impTable, r.company = some "Tcs" → r.salary ≠ none) :=
  ⟨(c1_groupwise_imputation impTable "Tcs").2.2.1 (by decide),
   (c1_groupwise_imputation impTable "Abc").2.1 (by decide),
   (c1_groupwise_imputation impTable "Tcs").2.2.2 (by decide)⟩

/-! ## Pipeline B (preprocessing2.py), step 7: one-hot encoding -/

/-- OneHotEncoder.fit on a column: the learned categories are the distinct
values in sorted order (sklearn uses np.unique). -/
def oneHotFit (vals : List String) : List String :=
  (List.insertionSort (fun a b => a ≤ b) vals).dedup

/-- get_feature_names_out: one new column name per learned category, formed
from the source column name and the category value. -/
def oneHotNames (col : String) (vals : List String) : List String :=
  (oneHotFit vals).map (fun cat => col ++ "_" ++ cat)

/-- One encoded output row: the indicator vector of the value over the
learned categories. -/
def oneHotRow (cats : List String) (v : String) : List ℚ :=
  cats.map (fun cat => if v = cat then 1 else 0)

/-- OneHotEncoder.fit_transform: fit the categories on the column and encode
every row of the same column. -/
def oneHotTransform (vals : List String) : List (List ℚ) :=
  vals.map (oneHotRow (oneHotFit vals))

theorem oneHotRow_sum_zero (v : String) :
    ∀ cats : List String, v ∉ cats → (oneHotRow cats v).sum = 0 := by
  intro cats
  induction cats with
  | nil => intro _; rfl
  | cons c cs ih =>
    intro hv
    have hvc : ¬v = c := fun h => hv (h ▸ List.mem_cons_self c cs)
    have hvcs : v ∉ cs := fun h => hv (List.mem_cons_of_mem c h)
    have hz := ih hvcs
    simp only [oneHotRow, List.map_cons, List.sum_cons] at hz ⊢
    rw [if_neg hvc, hz, zero_add]

theorem oneHotRow_sum_one (v : String) :
    ∀ cats : List String, cats.Nodup → v ∈ cats → (oneHotRow cats v).sum = 1 := by
  intro cats
  induction cats with
  | nil => intro _ hv; exact absurd hv (List.not_mem_nil v)
  | cons c cs ih =>
    intro hnd hv
    by_cases hvc : v = c
    · subst hvc
      have hvcs : v ∉ cs := (List.nodup_cons.mp hnd).1
      have hz := oneHotRow_sum_zero v cs hvcs
      simp only [oneHotRow, List.map_cons, List.sum_cons] at hz ⊢
      rw [if_true, hz, add_zero]
    · have hvcs : v ∈ cs := List.mem_of_ne_of_mem hvc hv
      have hs := ih (List.nodup_cons.mp hnd).2 hvcs
      simp only [oneHotRow, List.map_cons, List.sum_cons] at hs ⊢
      rw [if_neg hvc, hs, zero_add]

theorem oneHotRow_count_zero (v : String) :
    ∀ cats : List String, v ∉ cats → (oneHotRow cats v).count 1 = 0 := by
  intro cats
  induction cats with
  | nil => intro _; rfl
  | cons c cs ih =>
    intro hv
    have hvc : ¬v = c := fun h => hv (h ▸ List.mem_cons_self c cs)
    have hvcs : v ∉ cs := fun h => hv (List.mem_cons_of_mem c h)
    have hz := ih hvcs
    simp only [oneHotRow, List.map_cons] at hz ⊢
    rw [if_neg hvc, List.count_cons, hz]
    norm_num

theorem oneHotRow_count_one (v : String) :
    ∀ cats : List String, cats.Nodup → v ∈ cats → (oneHotRow cats v).count 1 = 1 := by
  intro cats
  induction cats with
  | nil => intro _ hv; exact absurd hv (List.not_mem_nil v)
  | cons c cs ih =>
    intro hnd hv
    by_cases hvc : v = c
    · subst hvc
      have hvcs : v ∉ cs := (List.nodup_cons.mp hnd).1
      have hz := oneHotRow_count_zero v cs hvcs
      simp only [oneHotRow, List.map_cons] at hz ⊢
      rw [if_true, List.count_cons, hz]
      norm_num
    · have hvcs : v ∈ cs := List.mem_of_ne_of_mem hvc hv
      have hs := ih (List.nodup_cons.mp hnd).2 hvcs
      simp only [oneHotRow, List.map_cons] at hs ⊢
      rw [if_neg hvc, List.count_cons, hs]
      norm_num

theorem oneHotFit_nodup (vals : List String) : (oneHotFit vals).Nodup :=
  List.nodup_dedup _

theorem mem_oneHotFit (vals : List String) (v : String) :
    v ∈ oneHotFit vals ↔ v ∈ vals := by
  unfold oneHotFit
  rw [List.mem_dedup]
  exact (List.perm_insertionSort _ vals).mem_iff

/-- Claim C4: one-hot encoding a source column with k distinct categories
appends exactly k new binary columns, named from the source column and the
category value, and when the encoding is fitted and applied on the same
column every encoded row consists of zeros and ones, sums to 1, and has
exactly one entry equal to 1. -/
theorem c4_onehot_complete (col : String) (vals : List String) :
    (oneHotNames col vals).length = vals.dedup.length
    ∧ oneHotNames col vals = (oneHotFit vals).map (fun cat => col ++ "_" ++ cat)
    ∧ (oneHotTransform vals).length = vals.length
    ∧ (∀ row ∈ oneHotTransform vals,
        (∀ x ∈ row, x = 0 ∨ x = 1) ∧ row.sum = 1 ∧ row.count 1 = 1) := by
  refine ⟨?_, rfl, List.length_map _ _, ?_⟩
  · rw [oneHotNames, List.length_map]
    exact ((List.perm_insertionSort (fun a b => a ≤ b) vals).dedup).length_eq
  · intro row hrow
    obtain ⟨v, hv, rfl⟩ := List.mem_map.mp hrow
    refine ⟨?_, ?_, ?_⟩
    · intro x hx
      obtain ⟨cat, _, rfl⟩ := List.mem_map.mp hx
      by_cases hvc : v = cat
      · rw [if_pos hvc]; exact Or.inr rfl
      · rw [if_neg hvc]; exact Or.inl rfl
    · exact oneHotRow_sum_one v _ (oneHotFit_nodup vals) ((mem_oneHotFit vals v).mpr hv)
    · exact oneHotRow_count_one v _ (oneHotFit_nodup vals) ((mem_oneHotFit vals v).mpr hv)

/-! ## Pipeline B, step 8: min-max scaling of the six numeric columns -/

/-- The minimum of a column of values (sklearn data_min_). -/
def listMin : List ℚ → ℚ
  | [] => 0
  | a :: l => l.foldl min a

/-- The maximum of a column of values (sklearn data_max_). -/
def listMax : List ℚ → ℚ
  | [] => 0
  | a :: l => l.foldl max a

/-- MinMaxScaler on one value: (v - min) / (max - min), except that sklearn
replaces a zero range by one before dividing, so that a constant column
scales to zero rather than dividing by zero. -/
def scaleVal (m M v : ℚ) : ℚ :=
  (v - m) / (if M - m = 0 then 1 else M - m)

/-- MinMaxScaler.fit_transform on one column. -/
def minMaxScale (l : List ℚ) : List ℚ :=
  l.map (scaleVal (listMin l) (listMax l))

/-- The columns_to_scale list of preprocessing2.py. -/
def columnsToScale : List String :=
  ["price", "minimum_nights", "number_of_reviews", "reviews_per_month",
   "calculated_host_listings_count", "availability_365"]

/-- Step 8 of preprocessing2.py viewed column-wise: the listed numeric
columns are min-max scaled, every other column is left alone. -/
def scaleStage (t : String → List ℚ) : String → List ℚ :=
  fun c => if c ∈ columnsToScale then minMaxScale (t c) else t c

theorem foldl_min_le_init (l : List ℚ) : ∀ a : ℚ, l.foldl min a ≤ a := by
  induction l with
  | nil => intro a; exact le_rfl
  | cons b l ih => intro a; exact le_trans (ih (min a b)) (min_le_left a b)

theorem foldl_min_le_mem (l : List ℚ) (v : ℚ) (hv : v ∈ l) :
    ∀ a : ℚ, l.foldl min a ≤ v := by
  induction l with
  | nil => exact absurd hv (List.not_mem_nil v)
  | cons b l ih =>
    intro a
    rcases List.mem_cons.mp hv with h | h
    · subst h
      exact le_trans (foldl_min_le_init l (min a v)) (min_le_right a v)
    · exact ih h (min a b)

theorem listMin_le (l : List ℚ) (v : ℚ) (hv : v ∈ l) : listMin l ≤ v := by
  rcases l with _ | ⟨a, l⟩
  · exact absurd hv (List.not_mem_nil v)
  · rcases List.mem_cons.mp hv with h | h
    · subst h
      exact foldl_min_le_init l v
    · exact foldl_min_le_mem l v h a

theorem init_le_foldl_max (l : List ℚ) : ∀ a : ℚ, a ≤ l.foldl max a := by
  induction l with
  | nil => intro a; exact le_rfl
  | cons b l ih => intro a; exact le_trans (le_max_left a b) (ih (max a b))

theorem mem_le_foldl_max (l : List ℚ) (v : ℚ) (hv : v ∈ l) :
    ∀ a : ℚ, v ≤ l.foldl max a := by
  induction l with
  | nil => exact absurd hv (List.not_mem_nil v)
  | cons b l ih =>
    intro a
    rcases List.mem_cons.mp hv with h | h
    · subst h
      exact le_trans (le_max_right a v) (init_le_foldl_max l (max a v))
    · exact ih h (max a b)

theorem le_listMax (l : List ℚ) (v : ℚ) (hv : v ∈ l) : v ≤ listMax l := by
  rcases l with _ | ⟨a, l⟩
  · exact absurd hv (List.not_mem_nil v)
  · rcases List.mem_cons.mp hv with h | h
    · subst h
      exact init_le_foldl_max l v
    · exact mem_le_foldl_max l v h a

/-- Claim C5: min-max scaling of the six listed columns maps every value v
to (v - min) / (max - min) over the observed column minimum and maximum,
every scaled value lies between 0 and 1, the minimum scales to 0, the
maximum scales to 1 whenever the column is not constant, and a constant
column (min = max) divides by the substituted range one, scaling everything
to 0 instead of dividing by zero. -/
theorem c5_minmax_scaling (t : String → List ℚ) (c : String)
    (hc : c ∈ columnsToScale) (_hne : t c ≠ []) :
    scaleStage t c = (t c).map (scaleVal (listMin (t c)) (listMax (t c)))
    ∧ (∀ x ∈ scaleStage t c, 0 ≤ x ∧ x ≤ 1)
    ∧ scaleVal (listMin (t c)) (listMax (t c)) (listMin (t c)) = 0
    ∧ (listMin (t c) < listMax (t c) →
        scaleVal (listMin (t c)) (listMax (t c)) (listMax (t c)) = 1)
    ∧ (listMin (t c) = listMax (t c) → ∀ x ∈ scaleStage t c, x = 0) := by
  have hstage : scaleStage t c = (t c).map (scaleVal (listMin (t c)) (listMax (t c))) := by
    unfold scaleStage
    rw [if_pos hc]
    rfl
  set m := listMin (t c) with hm
  set M := listMax (t c) with hM
  have hbound : ∀ v ∈ t c, m ≤ v ∧ v ≤ M := fun v hv =>
    ⟨listMin_le (t c) v hv, le_listMax (t c) v hv⟩
  refine ⟨hstage, ?_, ?_, ?_, ?_⟩
  · intro x hx
    rw [hstage] at hx
    obtain ⟨v, hv, rfl⟩ := List.mem_map.mp hx
    obtain ⟨hmv, hvM⟩ := hbound v hv
    unfold scaleVal
    by_cases h0 : M - m = 0
    · have hvm : v = m := le_antisymm (by linarith [sub_eq_zero.mp h0]) hmv
      rw [if_pos h0, hvm, sub_self, zero_div]
      norm_num
    · have hmM : 0 < M - m := lt_of_le_of_ne (by linarith) (Ne.symm h0)
      rw [if_neg h0]
      constructor
      · exact div_nonneg (by linarith) (le_of_lt hmM)
      · rw [div_le_one hmM]
        linarith
  · unfold scaleVal
    rw [sub_self, zero_div]
  · intro hlt
    have h0 : M - m ≠ 0 := by
      intro h
      have := sub_eq_zero.mp h
      exact absurd this (ne_of_gt hlt)
    unfold scaleVal
    rw [if_neg h0]
    exact div_self h0
  · intro heq x hx
    rw [hstage] at hx
    obtain ⟨v, hv, rfl⟩ := List.mem_map.mp hx
    obtain ⟨hmv, hvM⟩ := hbound v hv
    have hvm : v = m := le_antisymm (heq ▸ hvM) hmv
    unfold scaleVal
    rw [hvm, sub_self, zero_div]

/-- A concrete listings column assignment for exercising the scaler. -/
def listingsCols : String → List ℚ :=
  fun c => if c = "price" then [10, 30, 20] else []

/-- Witness for claim C5: scaling the concrete price column keeps every
value in the unit interval and sends the observed minimum to 0 and the
observed maximum to 1. -/
theorem c5_witness :
    (∀ x ∈ scaleStage listingsCols "price", 0 ≤ x ∧ x ≤ 1)
    ∧ scaleVal (listMin (listingsCols "price")) (listMax (listingsCols "price"))
        (listMin (listingsCols "price")) = 0
    ∧ scaleVal (listMin (listingsCols "price")) (listMax (listingsCols "price"))
        (listMax (listingsCols "price")) = 1 := by
  have h := c5_minmax_scaling listingsCols "price" (by decide) (by decide)
  exact ⟨h.2.1, h.2.2.1, h.2.2.2.1 (by decide)⟩

/-! ## A generic table model of the whole of Pipeline A (preprocessing.py):
columns carry a name and a dtype, rows are lists of cells aligned with the
columns, and accessing a column that does not exist raises a KeyError,
modelled as an Except error. -/

/-- A pandas DataFrame: column names, their dtypes (aligned with cols) and
rows of cells (each aligned with cols). -/
structure PTable where
  cols : List String
  dtypes : List DType
  rows : List (List Cell)
deriving DecidableEq

/-- Position of a column name. -/
def colIdx (t : PTable) (c : String) : ℕ := t.cols.indexOf c

/-- The cells of a named column, in row order. -/
def colVals (t : PTable) (c : String) : List Cell :=
  t.rows.map (fun r => r.getD (colIdx t c) Cell.cna)

/-- df[c]: the cells of column c, or a KeyError when the column is absent. -/
def getColE (t : PTable) (c : String) : Except String (List Cell) :=
  if c ∈ t.cols then Except.ok (colVals t c) else Except.error ("KeyError: " ++ c)

/-- Overwrite the cells of an existing column (df[c] = vals). -/
def setColVals (t : PTable) (c : String) (vals : List Cell) : PTable :=
  { t with rows := List.zipWith (fun r v => r.set (colIdx t c) v) t.rows vals }

/-- Change the recorded dtype of an existing column. -/
def setColDtype (t : PTable) (c : String) (d : DType) : PTable :=
  { t with dtypes := t.dtypes.set (colIdx t c) d }

/-- The dtype of a named column. -/
def dtypeAt (t : PTable) (c : String) : DType :=
  t.dtypes.getD (colIdx t c) DType.dnum

/-- Well-formed table: dtypes and every row are aligned with the columns. -/
def WF (t : PTable) : Prop :=
  t.dtypes.length = t.cols.length ∧ ∀ r ∈ t.rows, r.length = t.cols.length

/-- df[col].nunique() for the column at position i: the number of distinct
non-missing cells. -/
def nuniqueAt (t : PTable) (i : ℕ) : ℕ :=
  (((t.rows.map (fun r => r.getD i Cell.cna)).filter
    (fun x => decide (x ≠ Cell.cna))).dedup).length

/-- The column positions that survive step 3 (more than one distinct
non-missing value). -/
def keepIdxs (t : PTable) : List ℕ :=
  (List.range t.cols.length).filter (fun i => decide (1 < nuniqueAt t i))

/-- Step 3 of preprocessing.py: drop the columns whose nunique is at most
one. -/
def dropUseless (t : PTable) : PTable :=
  { cols := (keepIdxs t).map (fun i => t.cols.getD i ""),
    dtypes := (keepIdxs t).map (fun i => t.dtypes.getD i DType.dnum),
    rows := t.rows.map (fun r => (keepIdxs t).map (fun i => r.getD i Cell.cna)) }

/-- Step 4 of preprocessing.py: astype(str).str.strip().str.title() on every
object-dtype column, cell by cell. -/
def normalizeText (t : PTable) : PTable :=
  { t with rows := t.rows.map (fun r =>
      List.zipWith (fun cell d => if d = DType.dobj then normCell cell else cell)
        r t.dtypes) }

/-- A strict-weak order on cells used to model that pandas mode() returns
the modes sorted (only like-typed cells are ever compared in practice). -/
def cellLtb : Cell → Cell → Bool
  | Cell.cstr a, Cell.cstr b => decide (a < b)
  | Cell.cnum a, Cell.cnum b => decide (a < b)
  | Cell.cnum _, Cell.cstr _ => true
  | Cell.cstr _, Cell.cnum _ => false
  | Cell.cna, Cell.cna => false
  | Cell.cna, _ => true
  | _, Cell.cna => false

/-- pandas Series.mode()[0] on cells: most frequent cell, ties resolved to
the smallest (mode returns the modes sorted); none on an empty list. -/
def modeCell (l : List Cell) : Option Cell :=
  match l.dedup with
  | [] => none
  | c :: cs =>
    some (cs.foldl
      (fun b a =>
        if l.count b < l.count a ∨ (l.count a = l.count b ∧ cellLtb a b) then a else b) c)

/-- Step 5 of preprocessing.py, Company fill: when the Company column has a
missing value, replace every missing entry by the mode of the non-missing
entries (mode()[0] raises when the column is entirely missing). -/
def companyModeFill (t : PTable) : Except String PTable := do
  let col ← getColE t "Company"
  if 0 < col.count Cell.cna then
    match modeCell (col.filter (fun x => decide (x ≠ Cell.cna))) with
    | some m =>
      pure (setColVals t "Company" (col.map (fun x => if x = Cell.cna then m else x)))
    | none => Except.error "IndexError: mode"
  else
    pure t

/-- Step 5, Place fill: groupby(Company)[Place].transform(fill_place).  A
row with a missing group key belongs to no group and transform yields NaN
there; within a group a missing Place becomes the group mode, or the
literal Unknown when the group has no non-missing Place. -/
def placeGroupFill (t : PTable) : Except String PTable := do
  let key ← getColE t "Company"
  let tgt ← getColE t "Place"
  let pairs := key.zip tgt
  pure (setColVals t "Place" (pairs.map (fun p =>
    if p.1 = Cell.cna then Cell.cna
    else if p.2 = Cell.cna then
      match modeCell (pairs.filterMap (fun q =>
          if q.1 = p.1 ∧ q.2 ≠ Cell.cna then some q.2 else none)) with
      | some m => m
      | none => Cell.cstr "Unknown"
    else p.2)))

/-- The numeric values among a list of cells (quantile, median and mean
skip missing values). -/
def cellNums (l : List Cell) : List ℚ :=
  l.filterMap (fun x => match x with | Cell.cnum q => some q | _ => none)

/-- Step 5, Age and Salary fills: groupby(Company)[target].transform with a
numeric statistic of the group; a missing key yields NaN, and a group whose
statistic is NaN (all-missing group) leaves NaN in place. -/
def numGroupFill (t : PTable) (keyc tgtc : String) (stat : List ℚ → Option ℚ) :
    Except String PTable := do
  let key ← getColE t keyc
  let tgt ← getColE t tgtc
  let pairs := key.zip tgt
  pure (setColVals t tgtc (pairs.map (fun p =>
    if p.1 = Cell.cna then Cell.cna
    else if p.2 = Cell.cna then
      match stat (cellNums (pairs.filterMap
          (fun q => if q.1 = p.1 then some q.2 else none))) with
      | some v => Cell.cnum v
      | none => Cell.cna
    else p.2)))

/-- Step 6, the Gender map {0: Male, 1: Female} on one cell: any other
value, missing, non-integral or textual, is unmapped and becomes NaN. -/
def genderMapCell : Cell → Cell
  | Cell.cnum q =>
    if q = 0 then Cell.cstr "Male"
    else if q = 1 then Cell.cstr "Female"
    else Cell.cna
  | _ => Cell.cna

/-- Step 6 of preprocessing.py: when the Gender column is numeric, map its
codes to labels; the column dtype becomes object (categorical). -/
def genderRecode (t : PTable) : Except String PTable := do
  let col ← getColE t "Gender"
  if dtypeAt t "Gender" = DType.dnum then
    pure (setColDtype (setColVals t "Gender" (col.map genderMapCell)) "Gender" DType.dobj)
  else
    pure t

/-- Step 7, drop_duplicates (keep the first occurrence). -/
def dedupRows (t : PTable) : PTable :=
  { t with rows := dedupFirst t.rows }

/-- Step 7, a row filter on a numeric column: a non-numeric or missing cell
never satisfies the comparison. -/
def numFilterG (t : PTable) (c : String) (pred : ℚ → Bool) : Except String PTable := do
  let _ ← getColE t c
  pure { t with rows := t.rows.filter (fun r =>
    match r.getD (colIdx t c) Cell.cna with
    | Cell.cnum v => pred v
    | _ => false) }

/-- Step 7, the Age range filter df[(df[Age] >= 18) & (df[Age] <= 65)]. -/
def ageRangeFilter (t : PTable) : Except String PTable :=
  numFilterG t "Age" (fun v => decide (18 ≤ v) && decide (v ≤ 65))

/-- Step 7, the Salary filter df[df[Salary] >= 1000]. -/
def salaryMinFilter (t : PTable) : Except String PTable :=
  numFilterG t "Salary" (fun v => decide (1000 ≤ v))

/-- Step 7, dropna(subset=[Company, Place, Gender]). -/
def dropnaRequired (t : PTable) : Except String PTable := do
  let _ ← getColE t "Company"
  let _ ← getColE t "Place"
  let _ ← getColE t "Gender"
  pure { t with rows := t.rows.filter (fun r =>
    decide (r.getD (colIdx t "Company") Cell.cna ≠ Cell.cna)
    && decide (r.getD (colIdx t "Place") Cell.cna ≠ Cell.cna)
    && decide (r.getD (colIdx t "Gender") Cell.cna ≠ Cell.cna)) }

/-- Step 8, remove_outliers_iqr on a named column of the generic table. -/
def outlierFilter (t : PTable) (c : String) : Except String PTable := do
  let col ← getColE t c
  match quantileLin (cellNums col) (1/4), quantileLin (cellNums col) (3/4) with
  | some q1, some q3 =>
    pure { t with rows := t.rows.filter (fun r =>
      match r.getD (colIdx t c) Cell.cna with
      | Cell.cnum v =>
        decide (q1 - 3/2 * (q3 - q1) ≤ v) && decide (v ≤ q3 + 3/2 * (q3 - q1))
      | _ => false) }
  | _, _ => pure { t with rows := [] }

/-- Step 9, pd.cut on one Age cell, as a cell of the new column. -/
def seniorityCellOf : Cell → Cell
  | Cell.cnum a =>
    match seniorityOf a with
    | some s => Cell.cstr s
    | none => Cell.cna
  | _ => Cell.cna

/-- Step 9 of preprocessing.py: append the categorical Seniority column
derived from Age. -/
def addSeniority (t : PTable) : Except String PTable := do
  let col ← getColE t "Age"
  pure { cols := t.cols ++ ["Seniority"], dtypes := t.dtypes ++ [DType.dobj],
         rows := (t.rows.zip col).map (fun p => p.1 ++ [seniorityCellOf p.2]) }

/-- The whole of Pipeline A, steps 3 to 9 of preprocessing.py, in source
order; a missing column aborts the run with a KeyError. -/
def pipelineA (t : PTable) : Except String PTable := do
  let t1 := normalizeText (dropUseless t)
  let t2 ← companyModeFill t1
  let t3 ← placeGroupFill t2
  let t4 ← numGroupFill t3 "Company" "Age" medianQ
  let t5 ← numGroupFill t4 "Company" "Salary" meanQ
  let t6 ← genderRecode t5
  let t7 := dedupRows t6
  let t8 ← ageRangeFilter t7
  let t9 ← salaryMinFilter t8
  let t10 ← dropnaRequired t9
  let t11 ← outlierFilter t10 "Age"
  let t12 ← outlierFilter t11 "Salary"
  addSeniority t12

/-- The three-row employee table of the specification scenario. -/
def empInput : PTable :=
  { cols := ["Company", "Place", "Age", "Salary", "Gender"],
    dtypes := [DType.dobj, DType.dobj, DType.dnum, DType.dnum, DType.dnum],
    rows := [
      [Cell.cstr "tcs", Cell.cstr "Mumbai", Cell.cnum 24, Cell.cnum 30000, Cell.cnum 0],
      [Cell.cstr " Tcs ", Cell.cna, Cell.cna, Cell.cnum 32000, Cell.cnum 1],
      [Cell.cstr "Tcs", Cell.cstr "Mumbai", Cell.cnum 70, Cell.cnum 31000, Cell.cnum 0]] }

/-- Counterexample for claim C2: on the scenario input Pipeline A does not
produce a cleaned table at all.  The Place column has only one distinct
non-missing value (Mumbai), so step 3 drops it as useless, and the
group-wise Place fill of step 5 then fails with a KeyError; no output with
the claimed properties exists. -/
theorem c2_counterexample :
    pipelineA empInput = Except.error "KeyError: Place"
    ∧ ∀ t : PTable, pipelineA empInput ≠ Except.ok t := by
  have h : pipelineA empInput = Except.error "KeyError: Place" := by rfl
  refine ⟨h, fun t ht => ?_⟩
  rw [h] at ht
  exact Except.noConfusion ht

/-- Claim C2 as amended: on the scenario input, step 3 drops the Place
column (its only distinct non-missing value is Mumbai), the text
normalization still rewrites every Company value to Tcs, and the pipeline
then aborts at the group-wise Place fill with a KeyError; the age filter,
the Gender recode and the group fills are never reached. -/
theorem c2_amended :
    (dropUseless empInput).cols = ["Company", "Age", "Salary", "Gender"]
    ∧ colVals (normalizeText (dropUseless empInput)) "Company" =
        [Cell.cstr "Tcs", Cell.cstr "Tcs", Cell.cstr "Tcs"]
    ∧ companyModeFill (normalizeText (dropUseless empInput)) =
        Except.ok (normalizeText (dropUseless empInput))
    ∧ placeGroupFill (normalizeText (dropUseless empInput)) =
        Except.error "KeyError: Place"
    ∧ pipelineA empInput = Except.error "KeyError: Place" := by
  refine ⟨rfl, rfl, rfl, rfl, rfl⟩

/-! ## Helper lemmas for positional column access -/

theorem getD_set_self {α : Type} :
    ∀ (l : List α) (i : ℕ) (a d : α), i < l.length → (l.set i a).getD i d = a
  | [], i, _, _, h => absurd h (by simp)
  | _ :: _, 0, _, _, _ => rfl
  | _ :: l, i + 1, a, d, h =>
    getD_set_self l i a d (by simpa using Nat.lt_of_succ_lt_succ (by simpa using h))

theorem set_getD_self {α : Type} :
    ∀ (l : List α) (i : ℕ) (d : α), i < l.length → l.set i (l.getD i d) = l
  | [], i, _, h => absurd h (by simp)
  | _ :: _, 0, _, _ => rfl
  | x :: l, i + 1, d, h => by
    have ih := set_getD_self l i d (by simpa using Nat.lt_of_succ_lt_succ (by simpa using h))
    show x :: l.set i ((x :: l).getD (i + 1) d) = x :: l
    rw [show (x :: l).getD (i + 1) d = l.getD i d from rfl, ih]

theorem getD_zipWith {α β γ : Type} (f : α → β → γ) :
    ∀ (l₁ : List α) (l₂ : List β) (i : ℕ) (d₁ : α) (d₂ : β) (d₃ : γ),
      i < l₁.length → i < l₂.length →
      (List.zipWith f l₁ l₂).getD i d₃ = f (l₁.getD i d₁) (l₂.getD i d₂)
  | [], _, i, _, _, _, h₁, _ => absurd h₁ (by simp)
  | _ :: _, [], i, _, _, _, _, h₂ => absurd h₂ (by simp)
  | _ :: _, _ :: _, 0, _, _, _, _, _ => rfl
  | a :: l₁, b :: l₂, i + 1, d₁, d₂, d₃, h₁, h₂ =>
    getD_zipWith f l₁ l₂ i d₁ d₂ d₃
      (by simpa using Nat.lt_of_succ_lt_succ (by simpa using h₁))
      (by simpa using Nat.lt_of_succ_lt_succ (by simpa using h₂))

theorem zipWith_set_getD {α : Type} (i : ℕ) (d : α) :
    ∀ rows : List (List α), (∀ r ∈ rows, i < r.length) →
      List.zipWith (fun r v => r.set i v) rows (rows.map (fun r => r.getD i d)) = rows
  | [], _ => rfl
  | r :: rows, h => by
    simp only [List.map_cons, List.zipWith_cons_cons]
    rw [set_getD_self r i d (h r (List.mem_cons_self r rows)),
      zipWith_set_getD i d rows (fun r2 hr2 => h r2 (List.mem_cons_of_mem r hr2))]

theorem map_getD_zipWith_set {α : Type} (i : ℕ) (d : α) :
    ∀ (rows : List (List α)) (vals : List α), rows.length = vals.length →
      (∀ r ∈ rows, i < r.length) →
      (List.zipWith (fun r v => r.set i v) rows vals).map (fun r => r.getD i d) = vals
  | [], [], _, _ => rfl
  | [], _ :: _, h, _ => absurd h (by simp)
  | _ :: _, [], h, _ => absurd h (by simp)
  | r :: rows, v :: vals, h, hlen => by
    simp only [List.zipWith_cons_cons, List.map_cons]
    rw [getD_set_self r i v d (hlen r (List.mem_cons_self r rows)),
      map_getD_zipWith_set i d rows vals (by simpa using h)
        (fun r2 hr2 => hlen r2 (List.mem_cons_of_mem r hr2))]

theorem colIdx_lt_length (t : PTable) (c : String) (hc : c ∈ t.cols) :
    colIdx t c < t.cols.length :=
  List.indexOf_lt_length.mpr hc

/-- Claim C6: the binary Gender recoder maps the numeric code 0 to Male and
the code 1 to Female; every other cell, numeric, textual or missing, is
unmapped and becomes NaN; and the Gender column, numeric before the stage,
has dtype object afterwards with exactly the mapped cells. -/
theorem c6_gender_recode (t : PTable) (hw : WF t) (hg : "Gender" ∈ t.cols)
    (hd : dtypeAt t "Gender" = DType.dnum) :
    genderMapCell (Cell.cnum 0) = Cell.cstr "Male"
    ∧ genderMapCell (Cell.cnum 1) = Cell.cstr "Female"
    ∧ (∀ q : ℚ, q ≠ 0 → q ≠ 1 → genderMapCell (Cell.cnum q) = Cell.cna)
    ∧ (∀ s : String, genderMapCell (Cell.cstr s) = Cell.cna)
    ∧ genderMapCell Cell.cna = Cell.cna
    ∧ ∃ t2, genderRecode t = Except.ok t2
        ∧ colVals t2 "Gender" = (colVals t "Gender").map genderMapCell
        ∧ dtypeAt t2 "Gender" = DType.dobj := by
  refine ⟨by decide, by decide, ?_, fun s => rfl, rfl, ?_⟩
  · intro q hq0 hq1
    simp only [genderMapCell]
    rw [if_neg hq0, if_neg hq1]
  · refine ⟨setColDtype (setColVals t "Gender" ((colVals t "Gender").map genderMapCell))
      "Gender" DType.dobj, ?_, ?_, ?_⟩
    · unfold genderRecode getColE
      rw [if_pos hg]
      show (if dtypeAt t "Gender" = DType.dnum then _ else _ : Except String PTable) = _
      rw [if_pos hd]
      rfl
    · have hidx : colIdx t "Gender" < t.cols.length := colIdx_lt_length t "Gender" hg
      show (List.zipWith (fun r v => r.set (colIdx t "Gender") v) t.rows
          ((colVals t "Gender").map genderMapCell)).map
            (fun r => r.getD (colIdx t "Gender") Cell.cna) = _
      exact map_getD_zipWith_set _ _ t.rows _
        (by simp [colVals]) (fun r hr => (hw.2 r hr) ▸ hidx)
    · have hidx : colIdx t "Gender" < t.dtypes.length := by
        rw [hw.1]
        exact colIdx_lt_length t "Gender" hg
      show (t.dtypes.set (colIdx t "Gender") DType.dobj).getD (colIdx t "Gender")
          DType.dnum = DType.dobj
      exact getD_set_self _ _ _ _ hidx

/-- A two-row table with a numeric Gender column for the recode witness. -/
def genderTable : PTable :=
  { cols := ["Gender"], dtypes := [DType.dnum],
    rows := [[Cell.cnum 0], [Cell.cnum 1], [Cell.cnum 3]] }

/-- Witness for claim C6: the concrete table recodes to Male, Female and a
missing cell, and the column dtype becomes object. -/
theorem c6_witness :
    genderMapCell (Cell.cnum 0) = Cell.cstr "Male"
    ∧ genderMapCell (Cell.cnum 3) = Cell.cna
    ∧ ∃ t2, genderRecode genderTable = Except.ok t2
        ∧ colVals t2 "Gender" = (colVals genderTable "Gender").map genderMapCell
        ∧ dtypeAt t2 "Gender" = DType.dobj := by
  have h := c6_gender_recode genderTable ⟨rfl, by decide⟩ (by decide) rfl
  exact ⟨h.1, h.2.2.1 3 (by norm_num) (by norm_num), h.2.2.2.2.2⟩

theorem WF_normalizeText (t : PTable) (hw : WF t) : WF (normalizeText t) := by
  refine ⟨hw.1, ?_⟩
  intro r hr
  obtain ⟨r0, hr0, rfl⟩ := List.mem_map.mp hr
  rw [List.length_zipWith, hw.2 r0 hr0, hw.1]
  exact min_self _

theorem colVals_normalizeText (t : PTable) (hw : WF t) (c : String)
    (hc : c ∈ t.cols) :
    colVals (normalizeText t) c =
      (colVals t c).map (fun x => if dtypeAt t c = DType.dobj then normCell x else x) := by
  show ((t.rows.map (fun r =>
      List.zipWith (fun cell d => if d = DType.dobj then normCell cell else cell)
        r t.dtypes)).map (fun r => r.getD (colIdx t c) Cell.cna)) = _
  unfold colVals
  rw [List.map_map, List.map_map]
  apply List.map_congr_left
  intro r hr
  have h1 : colIdx t c < r.length := by
    rw [hw.2 r hr]
    exact colIdx_lt_length t c hc
  have h2 : colIdx t c < t.dtypes.length := by
    rw [hw.1]
    exact colIdx_lt_length t c hc
  simp only [Function.comp_apply]
  rw [getD_zipWith _ r t.dtypes _ Cell.cna DType.dnum Cell.cna h1 h2]
  rfl

/-- Claim C9 (implicit): after the text normalization of step 4, no
object-dtype column contains a missing value: astype(str) renders a NaN as
the string nan and title-casing turns it into the literal Nan.  As a
consequence the guarded Company mode fill of step 5 never fires, and the
group-wise Place fill finds nothing to replace, so both stages return the
table unchanged. -/
theorem c9_text_normalization (t : PTable) (hw : WF t)
    (hgC : "Company" ∈ t.cols) (hdC : dtypeAt t "Company" = DType.dobj)
    (hgP : "Place" ∈ t.cols) (hdP : dtypeAt t "Place" = DType.dobj) :
    normCell Cell.cna = Cell.cstr "Nan"
    ∧ (∀ c ∈ t.cols, dtypeAt t c = DType.dobj →
        ∀ x ∈ colVals (normalizeText t) c, ∃ s, x = Cell.cstr s)
    ∧ companyModeFill (normalizeText t) = Except.ok (normalizeText t)
    ∧ placeGroupFill (normalizeText t) = Except.ok (normalizeText t) := by
  have hall : ∀ c ∈ t.cols, dtypeAt t c = DType.dobj →
      ∀ x ∈ colVals (normalizeText t) c, ∃ s, x = Cell.cstr s := by
    intro c hc hdc x hx
    rw [colVals_normalizeText t hw c hc] at hx
    obtain ⟨y, _, rfl⟩ := List.mem_map.mp hx
    rw [if_pos hdc]
    exact ⟨_, rfl⟩
  have hkey := hall "Company" hgC hdC
  have htgt := hall "Place" hgP hdP
  have hnotna : ∀ (col : List Cell),
      (∀ x ∈ col, ∃ s, x = Cell.cstr s) → Cell.cna ∉ col := by
    intro col hcol hmem
    obtain ⟨s, hs⟩ := hcol Cell.cna hmem
    exact Cell.noConfusion hs
  have hgC2 : "Company" ∈ (normalizeText t).cols := hgC
  have hgP2 : "Place" ∈ (normalizeText t).cols := hgP
  refine ⟨by decide, hall, ?_, ?_⟩
  · unfold companyModeFill getColE
    rw [if_pos hgC2]
    show (if 0 < (colVals (normalizeText t) "Company").count Cell.cna
        then _ else _ : Except String PTable) = _
    rw [List.count_eq_zero.mpr (hnotna _ hkey), if_neg (lt_irrefl 0)]
    rfl
  · unfold placeGroupFill getColE
    rw [if_pos hgC2, if_pos hgP2]
    show Except.ok (setColVals (normalizeText t) "Place"
        (((colVals (normalizeText t) "Company").zip
          (colVals (normalizeText t) "Place")).map _)) = _
    have hmap : (((colVals (normalizeText t) "Company").zip
        (colVals (normalizeText t) "Place")).map (fun p =>
          if p.1 = Cell.cna then Cell.cna
          else if p.2 = Cell.cna then
            match modeCell ((((colVals (normalizeText t) "Company").zip
                (colVals (normalizeText t) "Place")).filterMap (fun q =>
              if q.1 = p.1 ∧ q.2 ≠ Cell.cna then some q.2 else none))) with
            | some m => m
            | none => Cell.cstr "Unknown"
          else p.2)) = colVals (normalizeText t) "Place" := by
      have hlen : (colVals (normalizeText t) "Company").length =
          (colVals (normalizeText t) "Place").length := by
        simp [colVals]
      calc (((colVals (normalizeText t) "Company").zip
            (colVals (normalizeText t) "Place")).map _)
          = (((colVals (normalizeText t) "Company").zip
            (colVals (normalizeText t) "Place")).map Prod.snd) := by
            apply List.map_congr_left
            intro p hp
            obtain ⟨h1, h2⟩ := List.of_mem_zip hp
            obtain ⟨s1, hs1⟩ := hkey p.1 h1
            obtain ⟨s2, hs2⟩ := htgt p.2 h2
            rw [if_neg (by rw [hs1]; exact fun h => Cell.noConfusion h),
              if_neg (by rw [hs2]; exact fun h => Cell.noConfusion h)]
        _ = colVals (normalizeText t) "Place" :=
            List.map_snd_zip _ _ (le_of_eq hlen.symm)
    rw [hmap]
    have hset : setColVals (normalizeText t) "Place"
        (colVals (normalizeText t) "Place") = normalizeText t := by
      unfold setColVals colVals
      rw [zipWith_set_getD (colIdx (normalizeText t) "Place") Cell.cna
        (normalizeText t).rows (fun r hr => by
          rw [(WF_normalizeText t hw).2 r hr]
          exact colIdx_lt_length (normalizeText t) "Place" hgP2)]
    rw [hset]

/-- A one-row table with object Company and Place columns, the Place cell
missing, for the normalization witness. -/
def c9Table : PTable :=
  { cols := ["Company", "Place"], dtypes := [DType.dobj, DType.dobj],
    rows := [[Cell.cstr "tcs", Cell.cna]] }

/-- Witness for claim C9: on the concrete table the normalization leaves no
missing text cell, and the Company fill and the Place fill return the
normalized table unchanged. -/
theorem c9_witness :
    normCell Cell.cna = Cell.cstr "Nan"
    ∧ companyModeFill (normalizeText c9Table) = Except.ok (normalizeText c9Table)
    ∧ placeGroupFill (normalizeText c9Table) = Except.ok (normalizeText c9Table) := by
  have h := c9_text_normalization c9Table ⟨rfl, by decide⟩ (by decide) rfl (by decide) rfl
  exact ⟨h.1, h.2.2.1, h.2.2.2⟩

end DataPrep
